import Mathlib

/-!
Verification of `scripts/extract-rsrc-lang.py`, a build-time code generator
that parses a plain-text table of Windows locale identifiers and emits Go
source fragments.  Python strings are modelled as `List Char`, fallible
Python operations (negative indexing on short lists, `int(s, 0)` parsing)
as `Except`/`Option`, and each Python function is translated separately so
it can be compared with its source line by line.
-/

namespace ExtractRsrcLang

/-- A Python string, modelled as its list of characters. -/
abbrev PyStr := List Char

/-- The apostrophe character (used by `sanitize_lang`). -/
def apos : Char := Char.ofNat 39

/-- Opening curly brace character. -/
def lbrace : Char := Char.ofNat 123

/-- Closing curly brace character. -/
def rbrace : Char := Char.ofNat 125

/-- Python `str.strip()`: remove leading and trailing whitespace. -/
def pyStrip (s : PyStr) : PyStr :=
  ((s.dropWhile Char.isWhitespace).reverse.dropWhile Char.isWhitespace).reverse

/-- Helper for `pySplit`: walks the string keeping the (reversed) current
token in `cur`; tokens are flushed at whitespace and at the end. -/
def pySplitAux : PyStr → PyStr → List PyStr
  | [], cur => if cur = [] then [] else [cur.reverse]
  | c :: cs, cur =>
    if c.isWhitespace then
      if cur = [] then pySplitAux cs [] else cur.reverse :: pySplitAux cs []
    else
      pySplitAux cs (c :: cur)

/-- Python `str.split()` with no argument: split on runs of whitespace,
producing no empty tokens. -/
def pySplit (s : PyStr) : List PyStr := pySplitAux s []

/-- Python `str.find(c)` for a single character, as an `Option` index
(`none` plays the role of Python's `-1`). -/
def pyFind : PyStr → Char → Option Nat
  | [], _ => none
  | c :: cs, t => if c = t then some 0 else (pyFind cs t).map (· + 1)

/-- Python `str.capitalize()` (ASCII fragment): first character upper-cased,
the rest lower-cased. -/
def pyCapitalize : PyStr → PyStr
  | [] => []
  | c :: cs => c.toUpper :: cs.map Char.toLower

/-- Lines 60–67 of the source: the inner `for letter in ["(", "["]` loop of
the name-building while-loop.  Both the `if` branch and the `else` branch
end in `break`, so at most the first iteration (with `letter = "("`) ever
runs; the `"["` element of the list is dead.  The loop is modelled on the
letter list with break-semantics made explicit. -/
def renderTokenLoop (tok : PyStr) : List Char → PyStr
  | [] => []
  | letter :: _ =>
    if tok.head? = some letter then
      letter :: (pyCapitalize (tok.drop 1) ++ [' '])
    else
      pyCapitalize tok ++ [' ']

/-- The contribution of one name token to `originalLanguage`. -/
def renderToken (tok : PyStr) : PyStr := renderTokenLoop tok ['(', '[']

/-- Lines 57–68: the while-loop accumulating `lang.originalLanguage` over
the name tokens (all tokens except the last two). -/
def buildName (toks : List PyStr) : PyStr :=
  toks.foldl (fun acc tok => acc ++ renderToken tok) []

/-- Lines 70–73: find the first hyphen; if it is at a positive index
`begin`, re-capitalize the slice `s[begin+1 : begin+3]` in place. -/
def recapAfterHyphen (s : PyStr) : PyStr :=
  match pyFind s '-' with
  | none => s
  | some b =>
    if 0 < b then
      s.take (b + 1) ++ pyCapitalize ((s.drop (b + 1)).take 2) ++ s.drop (b + 3)
    else
      s

/-- Python `s.replace(c, "")` for a single character: delete every
occurrence of `c`. -/
def pyReplaceDel (c : Char) (s : PyStr) : PyStr := s.filter (fun x => x ≠ c)

/-- Lines 15–26: `sanitize_lang`, ten successive single-character
deletions, innermost first (`"."` first, `","` last, as in the source). -/
def sanitize_lang (s : PyStr) : PyStr :=
  pyReplaceDel ',' (pyReplaceDel ' ' (pyReplaceDel '/' (pyReplaceDel '-'
    (pyReplaceDel ']' (pyReplaceDel '[' (pyReplaceDel apos
      (pyReplaceDel ')' (pyReplaceDel '(' (pyReplaceDel '.' s)))))))))

/-- Lines 5–10: the `Language` record.  The Python class-level defaults are
only ever shadowed by per-instance assignments of immutable values, so the
record is built afresh for each parsed line. -/
structure Language where
  language : PyStr
  originalLanguage : PyStr
  id : PyStr
  tag : PyStr
  isSubLang : Bool
deriving DecidableEq

/-- Lines 47–77: construction of the `Language` record for one line whose
token list is `elements` (requires `elements.length ≥ 2`; the caller
`parseLine` checks this, mirroring Python's `IndexError`). -/
def mkLanguage (lang_ids : List PyStr) (elements : List PyStr) : Language :=
  let tag := elements.getD (elements.length - 1) []
  let id := elements.getD (elements.length - 2) []
  let isSubLang : Bool :=
    if ¬ ('-' ∈ tag) then false
    else if ¬ (id ∈ lang_ids) then true
    else false
  let originalLanguage :=
    (recapAfterHyphen (buildName (elements.take (elements.length - 2)))).dropLast
  { language := sanitize_lang originalLanguage
    originalLanguage := originalLanguage
    id := id
    tag := tag
    isSubLang := isSubLang }

/-- Lines 46–84, one iteration of the per-line loop of `parse_txt_file`:
`.error ()` models the `IndexError` raised by `elements[-1]`/`elements[-2]`
on a line with fewer than two tokens; `.ok none` models the `continue`
that skips entries whose id is `"0x1000"`. -/
def parseLine (lang_ids : List PyStr) (elements : List PyStr) :
    Except Unit (Option Language) :=
  if elements.length < 2 then .error ()
  else
    let lang := mkLanguage lang_ids elements
    if lang.id = ("0x1000").data then .ok none
    else .ok (some lang)

/-- Lines 40–86: `parse_txt_file` over the list of raw lines of the file
(each line is stripped and split exactly as in the source).  An exception
on any line aborts the whole parse. -/
def parse_txt_file (lang_ids : List PyStr) : List PyStr → Except Unit (List Language)
  | [] => .ok []
  | line :: rest => do
    let entry ← parseLine lang_ids (pySplit (pyStrip line))
    let tail ← parse_txt_file lang_ids rest
    match entry with
    | none => pure tail
    | some lang => pure (lang :: tail)

/-- One digit of Python's lowercase `"{:x}"` format (`n < 16`). -/
def hexDigitChar (n : Nat) : Char :=
  if n < 10 then Char.ofNat (48 + n) else Char.ofNat (87 + n)

/-- Fuel-driven helper for `hexChars`; the fuel is always sufficient. -/
def hexCharsAux : Nat → Nat → List Char
  | 0, _ => []
  | fuel + 1, n =>
    if n < 16 then [hexDigitChar n]
    else hexCharsAux fuel (n / 16) ++ [hexDigitChar (n % 16)]

/-- Python's `f"{n:x}"` for a natural number: lowercase hexadecimal digits,
no padding, `"0"` for zero. -/
def hexChars (n : Nat) : List Char := hexCharsAux (n + 1) n

/-- Value of a character as a digit (Python `int` digit alphabet:
`0-9`, `a-z`, `A-Z`). -/
def digitVal (c : Char) : Option Nat :=
  if '0' ≤ c ∧ c ≤ '9' then some (c.toNat - 48)
  else if 'a' ≤ c ∧ c ≤ 'z' then some (c.toNat - 87)
  else if 'A' ≤ c ∧ c ≤ 'Z' then some (c.toNat - 55)
  else none

/-- Parse a non-empty digit string in the given base; `none` models
Python's `ValueError`. -/
def parseDigits (base : Nat) (s : PyStr) : Option Nat :=
  if s = [] then none
  else
    s.foldl
      (fun acc c =>
        acc.bind fun a =>
          (digitVal c).bind fun d =>
            if d < base then some (base * a + d) else none)
      (some 0)

/-- Python `int(s, 0)` (prefix-determined base) for the non-negative,
unsigned, underscore-free identifier strings this program feeds it:
`0x`/`0X` selects base 16, `0o`/`0O` base 8, `0b`/`0B` base 2; a bare
run of zeros is `0`; any other string is parsed as decimal, where a
leading zero is illegal.  `none` models `ValueError`. -/
def pyIntBase0 (s : PyStr) : Option Nat :=
  match s with
  | '0' :: c :: rest =>
    if c = 'x' ∨ c = 'X' then parseDigits 16 rest
    else if c = 'o' ∨ c = 'O' then parseDigits 8 rest
    else if c = 'b' ∨ c = 'B' then parseDigits 2 rest
    else if (c :: rest).all (fun x => x = '0') then some 0
    else none
  | ['0'] => some 0
  | s => parseDigits 10 s

/-- Lines 88–106: `generate_go_code`.  The first pass emits the top-level
language constants, the second the sub-language identifiers; both append
to the same accumulator, in original entry order. -/
def generate_go_code (languages : List Language) : PyStr :=
  let code1 :=
    languages.foldl
      (fun code lang =>
        if lang.isSubLang = true then code
        else
          code ++ ("// ").data ++ lang.originalLanguage ++ (" (").data ++
            lang.tag ++ (")\n").data ++ ("Lang").data ++ lang.language ++
            (" ResourceLang = ").data ++ lang.id ++ ("\n").data)
      []
  languages.foldl
    (fun code lang =>
      if lang.isSubLang = true then
        code ++ ("// ").data ++ lang.originalLanguage ++ (" (").data ++
          lang.tag ++ (")\n").data ++ ("SubLang").data ++ lang.language ++
          ("\n").data
      else code)
    code1

/-- Lines 108–114: `generate_lang_string` (note the two spaces after the
colon, exactly as in the source f-string). -/
def generate_lang_string (languages : List Language) : PyStr :=
  languages.foldl
    (fun code lang =>
      if lang.isSubLang = true then code
      else
        code ++ ("Lang").data ++ lang.language ++ (" :  \"").data ++
          lang.originalLanguage ++ (" (").data ++ lang.tag ++
          (")\",\n").data)
    []

/-- Lines 116–122: `generate_sub_lang_string`. -/
def generate_sub_lang_string (languages : List Language) : PyStr :=
  languages.foldl
    (fun code lang =>
      if lang.isSubLang = true then
        code ++ ("SubLang").data ++ lang.language ++ (" :  \"").data ++
          lang.originalLanguage ++ (" (").data ++ lang.tag ++
          (")\",\n").data
      else code)
    []

/-- Line 128: the fixed exclusion list of the map generator. -/
def ignore_list : List PyStr :=
  [("0x0476").data, ("0x05FE").data, ("0x0501").data, ("0x09FF").data,
   ("0x043D").data, ("0x0471").data, ("0x045F").data, ("0x7C67").data]

/-- Line 134: the `"},\n"` fragment closing a group. -/
def closeBrace : PyStr := ("\x7d,\n").data

/-- Line 135: the `"Lang<name> : {\n"` fragment opening a group. -/
def topLangLine (name : PyStr) : PyStr :=
  ("Lang").data ++ name ++ (" : \x7b\n").data

/-- Line 139: the `" 0x<n:x> : SubLang<name>.String(),\n"` fragment for a
sub-language entry, for the already-shifted value `n`. -/
def subLangLine (name : PyStr) (n : Nat) : PyStr :=
  (" 0x").data ++ hexChars n ++ (" : SubLang").data ++ name ++
    (".String(),\n").data

/-- Lines 124–140: `generate_lang_sub_lang_map_string`, with the boolean
`curly_bracket_is_open` threaded as the second argument (the source call
starts it at `false`).  `none` models the `ValueError` that
`int(lang.id, 0)` raises on an unparsable id. -/
def generate_lang_sub_lang_map_string : List Language → Bool → Option PyStr
  | [], _ => some []
  | lang :: rest, opened =>
    if lang.id ∈ ignore_list then
      generate_lang_sub_lang_map_string rest opened
    else if lang.isSubLang = false then
      (generate_lang_sub_lang_map_string rest true).map
        (fun tail =>
          (if opened then closeBrace else []) ++ topLangLine lang.language ++ tail)
    else
      (pyIntBase0 lang.id).bind fun n =>
        (generate_lang_sub_lang_map_string rest opened).map
          (fun tail => subLangLine lang.language (Nat.shiftRight n 10) ++ tail)

/-! ## Helper lemmas -/

theorem isWhitespace_ofNat_of_range {k : Nat} (h1 : 65 ≤ k) (h2 : k ≤ 122) :
    (Char.ofNat k).isWhitespace = false := by
  interval_cases k <;> decide

theorem isWhitespace_toUpper {c : Char} (h : c.isWhitespace = false) :
    (Char.toUpper c).isWhitespace = false := by
  simp only [Char.toUpper]
  split
  next h1 => exact isWhitespace_ofNat_of_range (by omega) (by omega)
  next => exact h

theorem isWhitespace_toLower {c : Char} (h : c.isWhitespace = false) :
    (Char.toLower c).isWhitespace = false := by
  simp only [Char.toLower]
  split
  next h1 => exact isWhitespace_ofNat_of_range (by omega) (by omega)
  next => exact h

theorem pySplitAux_tokens (s : PyStr) :
    ∀ cur, (∀ c ∈ cur, c.isWhitespace = false) →
    ∀ t ∈ pySplitAux s cur, t ≠ [] ∧ ∀ c ∈ t, c.isWhitespace = false := by
  induction s with
  | nil =>
    intro cur hcur t ht
    unfold pySplitAux at ht
    split at ht
    · cases ht
    · next hne =>
      rcases List.mem_singleton.mp ht with rfl
      refine ⟨by simpa using hne, ?_⟩
      intro c hc
      exact hcur c (List.mem_reverse.mp hc)
  | cons c cs ih =>
    intro cur hcur t ht
    unfold pySplitAux at ht
    split at ht
    · split at ht
      · exact ih [] (by simp) t ht
      · next hne =>
        rcases List.mem_cons.mp ht with rfl | ht'
        · refine ⟨by simpa using hne, ?_⟩
          intro x hx
          exact hcur x (List.mem_reverse.mp hx)
        · exact ih [] (by simp) t ht'
    · next hws =>
      refine ih (c :: cur) ?_ t ht
      intro x hx
      rcases List.mem_cons.mp hx with rfl | hx'
      · exact Bool.eq_false_iff.mpr hws
      · exact hcur x hx'

theorem pySplit_tokens (s : PyStr) :
    ∀ t ∈ pySplit s, t ≠ [] ∧ ∀ c ∈ t, c.isWhitespace = false :=
  pySplitAux_tokens s [] (by simp)

theorem pyCapitalize_eq_nil_iff (s : PyStr) : pyCapitalize s = [] ↔ s = [] := by
  cases s <;> simp [pyCapitalize]

theorem pyCapitalize_tokens {s : PyStr} (h : ∀ c ∈ s, c.isWhitespace = false) :
    ∀ c ∈ pyCapitalize s, c.isWhitespace = false := by
  cases s with
  | nil => simp [pyCapitalize]
  | cons c cs =>
    intro x hx
    rcases List.mem_cons.mp hx with rfl | hx'
    · exact isWhitespace_toUpper (h c (by simp))
    · obtain ⟨y, hy, rfl⟩ := List.mem_map.mp hx'
      exact isWhitespace_toLower (h y (List.mem_cons_of_mem _ hy))

/-! ## Claim C8: the sanitizer removes all listed punctuation characters -/

/-- The punctuation characters the specification says `sanitize_lang`
removes: `.`, `(`, `)`, apostrophe, `[`, `]`, `-`, `/`, `,` and space. -/
def punctuationSet : List Char :=
  ['.', '(', ')', apos, '[', ']', '-', '/', ',', ' ']

/-- Claim C8: for every input string, `sanitize_lang` returns a string
containing none of the characters `.`, `(`, `)`, apostrophe, `[`, `]`,
`-`, `/`, `,` or space. -/
theorem C8_sanitize_removes_punctuation (s : PyStr) (c : Char)
    (h : c ∈ punctuationSet) : c ∉ sanitize_lang s := by
  intro hmem
  simp only [sanitize_lang, pyReplaceDel, List.mem_filter,
    decide_eq_true_eq] at hmem
  fin_cases h <;> simp_all [apos]

/-- Witness for C8 at a concrete input containing every punctuation
character: the apostrophe is removed from it. -/
theorem C8_witness :
    apos ∉ sanitize_lang (("Congo, D.R.C. (x) [y] a-b c/d" ++
      Char.toString apos ++ "s").data) :=
  C8_sanitize_removes_punctuation _ _ (by decide)

/-! ## Claim C9: lines with fewer than two tokens raise an error -/

theorem parse_txt_file_error_of_line {lang_ids : List PyStr} {line : PyStr}
    (h : parseLine lang_ids (pySplit (pyStrip line)) = .error ()) :
    ∀ pre post, parse_txt_file lang_ids (pre ++ line :: post) = .error () := by
  intro pre post
  induction pre with
  | nil =>
    simp only [List.nil_append, parse_txt_file, h]
    rfl
  | cons p pre ih =>
    simp only [List.cons_append, parse_txt_file, List.append_eq]
    rw [ih]
    cases hp : parseLine lang_ids (pySplit (pyStrip p)) with
    | error e => cases e; rfl
    | ok entry => rfl

/-- Claim C9: an input line that (after stripping) splits into fewer than
two tokens makes the per-line parser raise (the `IndexError` of
`elements[-1]`/`elements[-2]`), and the whole-file parse of any file
containing such a line fails; the line is never silently absorbed. -/
theorem C9_short_line_raises (lang_ids : List PyStr) (line : PyStr)
    (h : (pySplit (pyStrip line)).length < 2) :
    parseLine lang_ids (pySplit (pyStrip line)) = .error () ∧
    ∀ pre post, parse_txt_file lang_ids (pre ++ line :: post) = .error () := by
  have h1 : parseLine lang_ids (pySplit (pyStrip line)) = .error () := by
    simp [parseLine, h]
  exact ⟨h1, parse_txt_file_error_of_line h1⟩

/-- Witness for C9: the one-token line `"english"` raises, alone in a file. -/
theorem C9_witness :
    parseLine [] (pySplit (pyStrip ("english").data)) = .error () ∧
    ∀ pre post, parse_txt_file [] (pre ++ ("english").data :: post) = .error () :=
  C9_short_line_raises [] ("english").data (by decide)

/-! ## Claim C2: per-token name rendering -/

/-- The per-token rendering rule exactly as claim C2 words it: a token
beginning with `(` or `[` contributes that bracket character followed by
the capitalized remainder plus a separating space; any other token
contributes capitalized-token plus space. -/
def claimTokenC2 : PyStr → PyStr
  | [] => pyCapitalize [] ++ [' ']
  | c :: rest =>
    if c = '(' ∨ c = '[' then c :: (pyCapitalize rest ++ [' '])
    else pyCapitalize (c :: rest) ++ [' ']

/-- The amended per-token rendering rule: only tokens beginning with `(`
get the bracket treatment; every other token — including tokens beginning
with `[` — contributes the capitalized whole token plus a space. -/
def amendedTokenC2 : PyStr → PyStr
  | [] => pyCapitalize [] ++ [' ']
  | c :: rest =>
    if c = '(' then c :: (pyCapitalize rest ++ [' '])
    else pyCapitalize (c :: rest) ++ [' ']

/-- Counterexample to C2 as stated: on the token `"[Keeling]"` the source
loop takes its default branch (the `"["` element of `["(", "["]` is dead
because both branches of the inner conditional `break` on the first
iteration), producing `"[keeling] "`, not the `"[Keeling] "` the claim
describes. -/
theorem C2_counterexample :
    buildName [("[Keeling]").data] ≠
      (([("[Keeling]").data]).map claimTokenC2).flatten := by
  decide

theorem renderToken_eq_amendedTokenC2 (tok : PyStr) :
    renderToken tok = amendedTokenC2 tok := by
  cases tok with
  | nil => rfl
  | cons c rest =>
    by_cases hc : c = '('
    · subst hc; rfl
    · simp [renderToken, renderTokenLoop, amendedTokenC2, hc]

/-- Claim C2 as amended: in name reconstruction, a token beginning with
`(` contributes `(` followed by the capitalized remainder plus a space,
and every other token — including one beginning with `[` — contributes
the capitalized token plus a space. -/
theorem C2_token_rendering (toks : List PyStr) :
    buildName toks = (toks.map amendedTokenC2).flatten := by
  suffices h : ∀ acc, toks.foldl (fun a t => a ++ renderToken t) acc =
      acc ++ (toks.map amendedTokenC2).flatten by
    simpa [buildName] using h []
  induction toks with
  | nil => intro acc; simp
  | cons t rest ih =>
    intro acc
    rw [List.map_cons, List.flatten_cons, List.foldl_cons,
      renderToken_eq_amendedTokenC2, ih, List.append_assoc]

/-! ## Claim C5: the map generator skips the exclusion list entirely -/

/-- Claim C5: an entry whose `id` is in the fixed eight-element exclusion
list contributes nothing at all to the map generator's output (neither a
group opening nor a sub-language line), wherever it sits in the entry
list and whatever the open-group state. -/
theorem C5_ignored_ids_skipped (pre post : List Language) (e : Language)
    (b : Bool) (h : e.id ∈ ignore_list) :
    generate_lang_sub_lang_map_string (pre ++ e :: post) b =
      generate_lang_sub_lang_map_string (pre ++ post) b := by
  induction pre generalizing b with
  | nil => simp [generate_lang_sub_lang_map_string, h]
  | cons x pre ih =>
    simp only [List.cons_append, generate_lang_sub_lang_map_string,
      List.append_eq, ih]

/-- Witness for C5: a sub-language entry with the excluded id `0x0476`
generates nothing. -/
theorem C5_witness :
    generate_lang_sub_lang_map_string
      [⟨("Edo").data, ("Edo").data, ("0x0476").data, ("bin-NG").data, true⟩]
      false =
    generate_lang_sub_lang_map_string [] false :=
  C5_ignored_ids_skipped [] []
    ⟨("Edo").data, ("Edo").data, ("0x0476").data, ("bin-NG").data, true⟩
    false (by decide)

/-! ## Claim C1: the isSubLang classification rule -/

theorem parseLine_ok_some {lang_ids elements : List PyStr} {lang : Language}
    (h : parseLine lang_ids elements = .ok (some lang)) :
    2 ≤ elements.length ∧ lang = mkLanguage lang_ids elements := by
  unfold parseLine at h
  split at h
  · exact absurd h (by simp)
  · next hlen =>
    refine ⟨by omega, ?_⟩
    have h' : (if (mkLanguage lang_ids elements).id = ("0x1000").data then
        (Except.ok none : Except Unit (Option Language))
      else .ok (some (mkLanguage lang_ids elements))) = .ok (some lang) := h
    split at h'
    · exact absurd h' (by simp)
    · exact (Option.some_inj.mp (Except.ok.inj h')).symm

/-- Claim C1: for every parsed line that yields an entry, `tag` is the
last token, `id` is the second-to-last token, and `isSubLang` is true
exactly when the tag contains a hyphen and the id is absent from the
canonical-id list; in every other case it is false. -/
theorem C1_isSubLang_iff (lang_ids : List PyStr) (line : PyStr) (lang : Language)
    (h : parseLine lang_ids (pySplit (pyStrip line)) = .ok (some lang)) :
    lang.tag = (pySplit (pyStrip line)).getD ((pySplit (pyStrip line)).length - 1) [] ∧
    lang.id = (pySplit (pyStrip line)).getD ((pySplit (pyStrip line)).length - 2) [] ∧
    (lang.isSubLang = true ↔ '-' ∈ lang.tag ∧ lang.id ∉ lang_ids) := by
  obtain ⟨-, rfl⟩ := parseLine_ok_some h
  refine ⟨rfl, rfl, ?_⟩
  show (if ¬ ('-' ∈ _) then false else if ¬ _ ∈ lang_ids then true else false) = true ↔ _
  split_ifs with h1 h2 <;> simp_all [mkLanguage]

/-- Witness for C1 on the line `"Chinese Simplified 0x0004 zh-Hans"` with
an id list not containing `0x0004`. -/
theorem C1_witness :
    (mkLanguage [("0x0409").data]
        (pySplit (pyStrip ("Chinese Simplified 0x0004 zh-Hans").data))).tag =
      (pySplit (pyStrip ("Chinese Simplified 0x0004 zh-Hans").data)).getD
        ((pySplit (pyStrip ("Chinese Simplified 0x0004 zh-Hans").data)).length - 1) [] ∧
    (mkLanguage [("0x0409").data]
        (pySplit (pyStrip ("Chinese Simplified 0x0004 zh-Hans").data))).id =
      (pySplit (pyStrip ("Chinese Simplified 0x0004 zh-Hans").data)).getD
        ((pySplit (pyStrip ("Chinese Simplified 0x0004 zh-Hans").data)).length - 2) [] ∧
    ((mkLanguage [("0x0409").data]
        (pySplit (pyStrip ("Chinese Simplified 0x0004 zh-Hans").data))).isSubLang = true ↔
      '-' ∈ (mkLanguage [("0x0409").data]
        (pySplit (pyStrip ("Chinese Simplified 0x0004 zh-Hans").data))).tag ∧
      (mkLanguage [("0x0409").data]
        (pySplit (pyStrip ("Chinese Simplified 0x0004 zh-Hans").data))).id ∉
          [("0x0409").data]) :=
  C1_isSubLang_iff [("0x0409").data]
    ("Chinese Simplified 0x0004 zh-Hans").data _ (by rfl)

/-! ## Claim C3: exactly one entry per well-formed line, except 0x1000 -/

theorem parse_txt_file_drop_line {lang_ids : List PyStr} {line : PyStr}
    (h : parseLine lang_ids (pySplit (pyStrip line)) = .ok none) :
    ∀ pre post, parse_txt_file lang_ids (pre ++ line :: post) =
      parse_txt_file lang_ids (pre ++ post) := by
  intro pre post
  induction pre with
  | nil =>
    simp only [List.nil_append, parse_txt_file, h]
    cases hp : parse_txt_file lang_ids post with
    | error e => cases e; rfl
    | ok tail => rfl
  | cons p pre ih =>
    simp only [List.cons_append, parse_txt_file, List.append_eq, ih]

/-- Claim C3: a well-formed line (at least two tokens) whose second-to-last
token is `"0x1000"` produces no entry, and a file containing it parses to
the same entry list — hence the same four generator outputs — as the file
without it; a well-formed line with any other id produces exactly one
entry. -/
theorem C3_0x1000_dropped (lang_ids : List PyStr) (line : PyStr)
    (hlen : 2 ≤ (pySplit (pyStrip line)).length) :
    ((pySplit (pyStrip line)).getD ((pySplit (pyStrip line)).length - 2) [] =
        ("0x1000").data →
      parseLine lang_ids (pySplit (pyStrip line)) = .ok none ∧
      (∀ pre post, parse_txt_file lang_ids (pre ++ line :: post) =
        parse_txt_file lang_ids (pre ++ post)) ∧
      (∀ pre post entries entries',
        parse_txt_file lang_ids (pre ++ line :: post) = .ok entries →
        parse_txt_file lang_ids (pre ++ post) = .ok entries' →
        generate_go_code entries = generate_go_code entries' ∧
        generate_lang_string entries = generate_lang_string entries' ∧
        generate_sub_lang_string entries = generate_sub_lang_string entries' ∧
        generate_lang_sub_lang_map_string entries false =
          generate_lang_sub_lang_map_string entries' false)) ∧
    ((pySplit (pyStrip line)).getD ((pySplit (pyStrip line)).length - 2) [] ≠
        ("0x1000").data →
      parseLine lang_ids (pySplit (pyStrip line)) =
        .ok (some (mkLanguage lang_ids (pySplit (pyStrip line))))) := by
  constructor
  · intro hid
    have hnone : parseLine lang_ids (pySplit (pyStrip line)) = .ok none := by
      unfold parseLine
      rw [if_neg (by omega)]
      rw [if_pos]
      exact hid
    refine ⟨hnone, parse_txt_file_drop_line hnone, ?_⟩
    intro pre post entries entries' h1 h2
    rw [parse_txt_file_drop_line hnone pre post, h2] at h1
    rw [Except.ok.inj h1]
    exact ⟨rfl, rfl, rfl, rfl⟩
  · intro hid
    unfold parseLine
    rw [if_neg (by omega)]
    rw [if_neg]
    exact hid

/-- Witness for C3 on the well-formed line `"Reserved 0x1000 qps-ploca"`:
it is dropped, both on its own and inside a file. -/
theorem C3_witness :
    parseLine [] (pySplit (pyStrip ("Reserved 0x1000 qps-ploca").data)) = .ok none ∧
    parse_txt_file [] ([] ++ ("Reserved 0x1000 qps-ploca").data :: []) =
      parse_txt_file [] ([] ++ []) :=
  ⟨((C3_0x1000_dropped [] ("Reserved 0x1000 qps-ploca").data (by decide)).1
      (by decide)).1,
   ((C3_0x1000_dropped [] ("Reserved 0x1000 qps-ploca").data (by decide)).1
      (by decide)).2.1 [] []⟩

/-! ## Hexadecimal rendering facts -/

theorem hexDigitChar_no_brace {n : Nat} (h : n < 16) :
    hexDigitChar n ≠ lbrace ∧ hexDigitChar n ≠ rbrace := by
  interval_cases n <;> decide

theorem hexCharsAux_no_brace :
    ∀ (fuel n : Nat), ∀ c ∈ hexCharsAux fuel n, c ≠ lbrace ∧ c ≠ rbrace := by
  intro fuel
  induction fuel with
  | zero => intro n c hc; cases hc
  | succ fuel ih =>
    intro n c hc
    unfold hexCharsAux at hc
    split at hc
    · next h =>
      rcases List.mem_singleton.mp hc with rfl
      exact hexDigitChar_no_brace h
    · rcases List.mem_append.mp hc with h1 | h1
      · exact ih _ c h1
      · rcases List.mem_singleton.mp h1 with rfl
        exact hexDigitChar_no_brace (Nat.mod_lt _ (by omega))

theorem hexChars_no_brace (n : Nat) :
    ∀ c ∈ hexChars n, c ≠ lbrace ∧ c ≠ rbrace :=
  hexCharsAux_no_brace (n + 1) n

theorem subLangLine_no_lbrace {name : PyStr} (h : lbrace ∉ name) (n : Nat) :
    lbrace ∉ subLangLine name n := by
  intro hmem
  rcases List.mem_append.mp hmem with h1 | h1
  · rcases List.mem_append.mp h1 with h2 | h2
    · rcases List.mem_append.mp h2 with h3 | h3
      · rcases List.mem_append.mp h3 with h4 | h4
        · exact absurd h4 (by decide)
        · exact (hexChars_no_brace n lbrace h4).1 rfl
      · exact absurd h3 (by decide)
    · exact h h2
  · exact absurd h1 (by decide)

/-! ## Claim C4: the sub-language mapping line -/

/-- Claim C4: for every non-excluded sub-language entry in the list, the
map generator's output contains the fragment
`" 0x<r> : SubLang<name>.String(),\n"` where `<r>` is the entry's id
parsed by `int(·, 0)` and shifted right by 10 bits, rendered in lowercase
hexadecimal. -/
theorem C4_sub_lang_map_line (l : List Language) (e : Language) (n : Nat)
    (out : PyStr) (b : Bool)
    (he : e ∈ l) (hid : e.id ∉ ignore_list) (hsub : e.isSubLang = true)
    (hn : pyIntBase0 e.id = some n)
    (hout : generate_lang_sub_lang_map_string l b = some out) :
    ∃ u v, out = u ++ subLangLine e.language (Nat.shiftRight n 10) ++ v := by
  induction l generalizing b out with
  | nil => cases he
  | cons x rest ih =>
    rcases List.mem_cons.mp he with rfl | he'
    · simp only [generate_lang_sub_lang_map_string] at hout
      rw [if_neg hid, if_neg (by simp [hsub]), hn] at hout
      simp only [Option.some_bind] at hout
      cases hg : generate_lang_sub_lang_map_string rest b with
      | none => rw [hg] at hout; cases hout
      | some tail =>
        rw [hg] at hout
        exact ⟨[], tail, by simpa using (Option.some_inj.mp hout).symm⟩
    · simp only [generate_lang_sub_lang_map_string] at hout
      split at hout
      · exact ih _ _ he' hout
      · split at hout
        · cases hg : generate_lang_sub_lang_map_string rest true with
          | none => rw [hg] at hout; cases hout
          | some tail =>
            rw [hg] at hout
            obtain ⟨u, v, rfl⟩ := ih _ _ he' hg
            refine ⟨((if b = true then closeBrace else []) ++
              topLangLine x.language) ++ u, v, ?_⟩
            rw [← Option.some_inj.mp hout]
            simp [List.append_assoc]
        · cases hx : pyIntBase0 x.id with
          | none => rw [hx] at hout; cases hout
          | some m =>
            rw [hx] at hout
            simp only [Option.some_bind] at hout
            cases hg : generate_lang_sub_lang_map_string rest b with
            | none => rw [hg] at hout; cases hout
            | some tail =>
              rw [hg] at hout
              obtain ⟨u, v, rfl⟩ := ih _ _ he' hg
              refine ⟨subLangLine x.language (Nat.shiftRight m 10) ++ u, v, ?_⟩
              rw [← Option.some_inj.mp hout]
              simp [List.append_assoc]

/-- Witness for C4: a single Chinese Simplified sub-language entry with id
`0x0804` (`2052 >> 10 = 2`) yields the line `" 0x2 : ..."`. -/
theorem C4_witness :
    ∃ u v, subLangLine ("ChineseSimplified").data (Nat.shiftRight 2052 10) ++ [] =
      u ++ subLangLine ("ChineseSimplified").data (Nat.shiftRight 2052 10) ++ v :=
  C4_sub_lang_map_line
    [⟨("ChineseSimplified").data, ("Chinese Simplified").data,
      ("0x0804").data, ("zh-CN").data, true⟩]
    ⟨("ChineseSimplified").data, ("Chinese Simplified").data,
      ("0x0804").data, ("zh-CN").data, true⟩
    2052 (subLangLine ("ChineseSimplified").data (Nat.shiftRight 2052 10) ++ [])
    false (by decide) (by decide) (by decide) (by decide) (by rfl)

/-! ## Claim C10: sub-language lines are emitted without an open group -/

/-- Claim C10: the map generator emits a sub-language line unconditionally,
without checking whether a group is open.  If every entry before a
non-excluded sub-language entry is excluded or itself a sub-language (so
no group was ever opened), the entry's line is still emitted: the output
is the output for the preceding entries — which contains no opening
brace — followed directly by the sub-language line. -/
theorem C10_sub_line_without_group (pre post : List Language) (e : Language)
    (n : Nat) (out : PyStr)
    (hpre : ∀ x ∈ pre, x.id ∈ ignore_list ∨ x.isSubLang = true)
    (hbrace : ∀ x ∈ pre, lbrace ∉ x.language)
    (hid : e.id ∉ ignore_list) (hsub : e.isSubLang = true)
    (hn : pyIntBase0 e.id = some n)
    (hout : generate_lang_sub_lang_map_string (pre ++ e :: post) false = some out) :
    ∃ u v, generate_lang_sub_lang_map_string pre false = some u ∧
      out = u ++ subLangLine e.language (Nat.shiftRight n 10) ++ v ∧
      lbrace ∉ u := by
  induction pre generalizing out with
  | nil =>
    simp only [List.nil_append, generate_lang_sub_lang_map_string] at hout
    rw [if_neg hid, if_neg (by simp [hsub]), hn] at hout
    simp only [Option.some_bind] at hout
    cases hg : generate_lang_sub_lang_map_string post false with
    | none => rw [hg] at hout; cases hout
    | some tail =>
      rw [hg] at hout
      exact ⟨[], tail, rfl, by simpa using (Option.some_inj.mp hout).symm,
        by simp⟩
  | cons x pre ih =>
    have hxpre : ∀ y ∈ pre, y.id ∈ ignore_list ∨ y.isSubLang = true :=
      fun y hy => hpre y (List.mem_cons_of_mem _ hy)
    have hxbrace : ∀ y ∈ pre, lbrace ∉ y.language :=
      fun y hy => hbrace y (List.mem_cons_of_mem _ hy)
    simp only [List.cons_append, generate_lang_sub_lang_map_string,
      List.append_eq] at hout ⊢
    by_cases hxig : x.id ∈ ignore_list
    · rw [if_pos hxig] at hout ⊢
      exact ih _ hxpre hxbrace hout
    · have hx : x.isSubLang = true := (hpre x (by simp)).resolve_left hxig
      rw [if_neg hxig, if_neg (by simp [hx])] at hout ⊢
      cases hxn : pyIntBase0 x.id with
      | none => rw [hxn] at hout; cases hout
      | some m =>
        rw [hxn] at hout
        simp only [Option.some_bind] at hout ⊢
        cases hg : generate_lang_sub_lang_map_string (pre ++ e :: post) false with
        | none => rw [hg] at hout; cases hout
        | some tail =>
          rw [hg] at hout
          obtain ⟨u, v, hu, htail, hub⟩ := ih _ hxpre hxbrace hg
          rw [hu]
          refine ⟨subLangLine x.language (Nat.shiftRight m 10) ++ u, v,
            rfl, ?_, ?_⟩
          · rw [← Option.some_inj.mp hout, htail]
            simp [List.append_assoc]
          · intro hmem
            rcases List.mem_append.mp hmem with h1 | h1
            · exact subLangLine_no_lbrace (hbrace x (by simp)) _ h1
            · exact hub h1

/-- Witness for C10: a sub-language entry preceded only by an excluded
entry still gets its line, with no group opened before it. -/
theorem C10_witness :
    ∃ u v, generate_lang_sub_lang_map_string
        [⟨("Edo").data, ("Edo").data, ("0x0476").data, ("bin-NG").data, false⟩]
        false = some u ∧
      subLangLine ("ChineseSimplified").data (Nat.shiftRight 2052 10) ++ [] =
        u ++ subLangLine ("ChineseSimplified").data (Nat.shiftRight 2052 10) ++ v ∧
      lbrace ∉ u :=
  C10_sub_line_without_group
    [⟨("Edo").data, ("Edo").data, ("0x0476").data, ("bin-NG").data, false⟩] []
    ⟨("ChineseSimplified").data, ("Chinese Simplified").data,
      ("0x0804").data, ("zh-CN").data, true⟩
    2052 (subLangLine ("ChineseSimplified").data (Nat.shiftRight 2052 10) ++ [])
    (by decide) (by decide) (by decide) (by decide) (by decide) (by rfl)

/-! ## Claim C6: the final group is left unclosed -/

theorem subLangLine_no_rbrace {name : PyStr} (h : rbrace ∉ name) (n : Nat) :
    rbrace ∉ subLangLine name n := by
  intro hmem
  rcases List.mem_append.mp hmem with h1 | h1
  · rcases List.mem_append.mp h1 with h2 | h2
    · rcases List.mem_append.mp h2 with h3 | h3
      · rcases List.mem_append.mp h3 with h4 | h4
        · exact absurd h4 (by decide)
        · exact (hexChars_no_brace n rbrace h4).2 rfl
      · exact absurd h3 (by decide)
    · exact h h2
  · exact absurd h1 (by decide)

/-- Does the list contain a top-level (non-sub-language) entry that the
map generator does not exclude? -/
def hasTopEntry (l : List Language) : Bool :=
  l.any fun e => decide (e.id ∉ ignore_list) && !e.isSubLang

theorem genMap_brace_count (l : List Language) :
    ∀ (b : Bool) (out : PyStr),
    (∀ e ∈ l, lbrace ∉ e.language ∧ rbrace ∉ e.language) →
    generate_lang_sub_lang_map_string l b = some out →
    List.count lbrace out + cond (b && hasTopEntry l) 1 0 =
      List.count rbrace out + cond (hasTopEntry l) 1 0 := by
  induction l with
  | nil =>
    intro b out _ hout
    rw [← Option.some_inj.mp hout]
    simp [hasTopEntry]
  | cons x rest ih =>
    intro b out hnames hout
    have hx := hnames x (by simp)
    have hrest : ∀ e ∈ rest, lbrace ∉ e.language ∧ rbrace ∉ e.language :=
      fun e he => hnames e (List.mem_cons_of_mem _ he)
    simp only [generate_lang_sub_lang_map_string] at hout
    by_cases hig : x.id ∈ ignore_list
    · rw [if_pos hig] at hout
      have htop : hasTopEntry (x :: rest) = hasTopEntry rest := by
        simp [hasTopEntry, List.any_cons, hig]
      rw [htop]
      exact ih b out hrest hout
    · by_cases hsub : x.isSubLang = false
      · rw [if_neg hig, if_pos hsub] at hout
        cases hg : generate_lang_sub_lang_map_string rest true with
        | none => rw [hg] at hout; cases hout
        | some tail =>
          rw [hg] at hout
          rw [← Option.some_inj.mp hout]
          have htail := ih true tail hrest hg
          have htop : hasTopEntry (x :: rest) = true := by
            simp [hasTopEntry, List.any_cons, hig, hsub]
          rw [htop]
          have hLl : List.count lbrace (topLangLine x.language) = 1 := by
            rw [topLangLine, List.count_append, List.count_append,
              List.count_eq_zero_of_not_mem hx.1]
            decide
          have hLr : List.count rbrace (topLangLine x.language) = 0 := by
            rw [topLangLine, List.count_append, List.count_append,
              List.count_eq_zero_of_not_mem hx.2]
            decide
          have hBl : List.count lbrace (if b = true then closeBrace else []) = 0 := by
            cases b <;> decide
          have hBr : List.count rbrace (if b = true then closeBrace else []) =
              cond b 1 0 := by
            cases b <;> decide
          have htail' : List.count lbrace tail = List.count rbrace tail := by
            cases hht : hasTopEntry rest <;> rw [hht] at htail <;>
              simp only [Bool.true_and, cond_true, cond_false] at htail <;> omega
          simp only [List.count_append, hBl, hBr, hLl, hLr, Bool.and_true, cond_true]
          cases b <;> simp only [cond_true, cond_false] <;> omega
      · rw [if_neg hig, if_neg hsub] at hout
        have hsub' : x.isSubLang = true := by
          cases hxs : x.isSubLang
          · exact absurd hxs hsub
          · rfl
        cases hxn : pyIntBase0 x.id with
        | none => rw [hxn] at hout; cases hout
        | some m =>
          rw [hxn] at hout
          simp only [Option.some_bind] at hout
          cases hg : generate_lang_sub_lang_map_string rest b with
          | none => rw [hg] at hout; cases hout
          | some tail =>
            rw [hg] at hout
            rw [← Option.some_inj.mp hout]
            have htail := ih b tail hrest hg
            have htop : hasTopEntry (x :: rest) = hasTopEntry rest := by
              simp [hasTopEntry, List.any_cons, hsub']
            rw [htop]
            have hSl : List.count lbrace
                (subLangLine x.language (Nat.shiftRight m 10)) = 0 :=
              List.count_eq_zero_of_not_mem (subLangLine_no_lbrace hx.1 _)
            have hSr : List.count rbrace
                (subLangLine x.language (Nat.shiftRight m 10)) = 0 :=
              List.count_eq_zero_of_not_mem (subLangLine_no_rbrace hx.2 _)
            simp only [List.count_append, hSl, hSr]
            omega

/-- Claim C6: for every entry list (with brace-free sanitized names, as
the sanitizer guarantees for realistic input) containing at least one
non-excluded top-level entry, the map generator's output contains exactly
one more opening brace than closing brace: the final group is left
unclosed. -/
theorem C6_final_group_unclosed (l : List Language) (out : PyStr)
    (hnames : ∀ e ∈ l, lbrace ∉ e.language ∧ rbrace ∉ e.language)
    (htop : hasTopEntry l = true)
    (hout : generate_lang_sub_lang_map_string l false = some out) :
    List.count lbrace out = List.count rbrace out + 1 := by
  have := genMap_brace_count l false out hnames hout
  rw [htop] at this
  simpa using this

/-- Witness for C6: the output for one top-level entry followed by one
sub-language entry has one opening group brace and no closing brace. -/
theorem C6_witness :
    List.count lbrace
      (topLangLine ("Chinese").data ++
        (subLangLine ("ChineseSimplified").data (Nat.shiftRight 2052 10) ++ [])) =
    List.count rbrace
      (topLangLine ("Chinese").data ++
        (subLangLine ("ChineseSimplified").data (Nat.shiftRight 2052 10) ++ [])) + 1 :=
  C6_final_group_unclosed
    [⟨("Chinese").data, ("Chinese").data, ("0x0004").data, ("zh").data, false⟩,
     ⟨("ChineseSimplified").data, ("Chinese Simplified").data,
       ("0x0804").data, ("zh-CN").data, true⟩]
    (topLangLine ("Chinese").data ++
      (subLangLine ("ChineseSimplified").data (Nat.shiftRight 2052 10) ++ []))
    (by decide) (by decide) (by rfl)

/-! ## Claim C7: displayName never ends in whitespace -/

/-- Shape invariant of the name accumulator: it is empty, or it ends in a
non-whitespace character followed by exactly one space (the separating
space appended after the last token). -/
def EndsOk (s : PyStr) : Prop :=
  s = [] ∨ ∃ u c, s = u ++ [c, ' '] ∧ c.isWhitespace = false

theorem append_space_shape {w : PyStr} (hne : w ≠ [])
    (hgood : ∀ c ∈ w, c.isWhitespace = false) :
    ∃ v c, w ++ [' '] = v ++ [c, ' '] ∧ c.isWhitespace = false := by
  refine ⟨w.dropLast, w.getLast hne, ?_, hgood _ (List.getLast_mem hne)⟩
  conv_lhs => rw [← List.dropLast_append_getLast hne]
  simp

theorem renderToken_shape {t : PyStr} (hne : t ≠ [])
    (hgood : ∀ c ∈ t, c.isWhitespace = false) :
    ∃ v c, renderToken t = v ++ [c, ' '] ∧ c.isWhitespace = false := by
  have hcap : ∀ c ∈ pyCapitalize t, c.isWhitespace = false :=
    pyCapitalize_tokens hgood
  have hdropgood : ∀ c ∈ pyCapitalize (t.drop 1), c.isWhitespace = false :=
    pyCapitalize_tokens (fun c hc => hgood c (List.mem_of_mem_drop hc))
  have hrt : renderToken t = if t.head? = some '(' then
      '(' :: (pyCapitalize (t.drop 1) ++ [' '])
    else pyCapitalize t ++ [' '] := rfl
  rw [hrt]
  split
  · cases hd : t.drop 1 with
    | nil =>
      exact ⟨[], '(', rfl, by decide⟩
    | cons d ds =>
      have hne' : pyCapitalize (d :: ds) ≠ [] := by
        simp [pyCapitalize]
      obtain ⟨v, c, hvc, hc⟩ := append_space_shape hne' (hd ▸ hdropgood)
      exact ⟨'(' :: v, c, by rw [hvc]; rfl, hc⟩
  · have hne' : pyCapitalize t ≠ [] := by
      rcases t with _ | ⟨a, as⟩
      · exact absurd rfl hne
      · simp [pyCapitalize]
    obtain ⟨v, c, hvc, hc⟩ := append_space_shape hne' hcap
    exact ⟨v, c, hvc, hc⟩

theorem foldl_render_endsOk (toks : List PyStr) :
    ∀ acc, (toks = [] → EndsOk acc) →
    (∀ t ∈ toks, t ≠ [] ∧ ∀ c ∈ t, c.isWhitespace = false) →
    EndsOk (toks.foldl (fun a t => a ++ renderToken t) acc) := by
  induction toks with
  | nil => intro acc h _; exact h rfl
  | cons t rest ih =>
    intro acc _ hgood
    rw [List.foldl_cons]
    refine ih (acc ++ renderToken t) (fun _ => ?_)
      (fun t' ht' => hgood t' (List.mem_cons_of_mem _ ht'))
    obtain ⟨v, c, hvc, hc⟩ :=
      renderToken_shape (hgood t (by simp)).1 (hgood t (by simp)).2
    exact Or.inr ⟨acc ++ v, c, by rw [hvc, List.append_assoc], hc⟩

theorem buildName_endsOk {toks : List PyStr}
    (hgood : ∀ t ∈ toks, t ≠ [] ∧ ∀ c ∈ t, c.isWhitespace = false) :
    EndsOk (buildName toks) :=
  foldl_render_endsOk toks [] (fun _ => Or.inl rfl) hgood

theorem endsOk_dropLast {s : PyStr} (h : EndsOk s) :
    ∀ c, s.dropLast.getLast? = some c → c.isWhitespace = false := by
  rcases h with rfl | ⟨u, c', rfl, hc'⟩
  · intro c hc; cases hc
  · intro c hc
    have : (u ++ [c', ' ']).dropLast = u ++ [c'] := by
      rw [show u ++ [c', ' '] = (u ++ [c']) ++ [' '] by simp,
        List.dropLast_concat]
    rw [this, List.getLast?_concat] at hc
    rw [← Option.some_inj.mp hc]
    exact hc'

theorem recapAfterHyphen_endsOk {s : PyStr} (h : EndsOk s) :
    EndsOk (recapAfterHyphen s) := by
  rcases h with rfl | ⟨u, c, rfl, hc⟩
  · exact Or.inl rfl
  · unfold recapAfterHyphen
    cases hf : pyFind (u ++ [c, ' ']) '-' with
    | none => exact Or.inr ⟨u, c, rfl, hc⟩
    | some b =>
      show EndsOk (if 0 < b then
        (u ++ [c, ' ']).take (b + 1) ++
          pyCapitalize (((u ++ [c, ' ']).drop (b + 1)).take 2) ++
          (u ++ [c, ' ']).drop (b + 3)
        else u ++ [c, ' '])
      split
      · have hcases : b + 3 ≤ u.length ∨ b + 2 = u.length ∨ b + 1 = u.length ∨
            b = u.length ∨ u.length + 1 ≤ b := by omega
        rcases hcases with hA | hB | hC | hD | hE
        · have h1 : (u ++ [c, ' ']).take (b + 1) = u.take (b + 1) :=
            List.take_append_of_le_length (by omega)
          have h2 : (u ++ [c, ' ']).drop (b + 1) = u.drop (b + 1) ++ [c, ' '] :=
            List.drop_append_of_le_length (by omega)
          have h3 : (u.drop (b + 1) ++ [c, ' ']).take 2 = (u.drop (b + 1)).take 2 :=
            List.take_append_of_le_length (by simp; omega)
          rw [h1, h2, h3, List.drop_append_of_le_length (by omega)]
          exact Or.inr ⟨u.take (b + 1) ++ pyCapitalize ((u.drop (b + 1)).take 2) ++
            u.drop (b + 3), c, by simp [List.append_assoc], hc⟩
        · have hlen1 : (u.drop (b + 1)).length = 1 := by simp; omega
          obtain ⟨d, hd⟩ := List.length_eq_one.mp hlen1
          have h1 : (u ++ [c, ' ']).take (b + 1) = u.take (b + 1) :=
            List.take_append_of_le_length (by omega)
          have h2 : (u ++ [c, ' ']).drop (b + 1) = [d, c, ' '] := by
            rw [List.drop_append_of_le_length (by omega), hd]
            rfl
          have h4 : (u ++ [c, ' ']).drop (b + 3) = [' '] := by
            rw [List.drop_append_eq_append_drop,
              List.drop_of_length_le (by omega),
              show b + 3 - u.length = 1 by omega]
            rfl
          rw [h1, h2, h4]
          show EndsOk (u.take (b + 1) ++ [d.toUpper, c.toLower] ++ [' '])
          exact Or.inr ⟨u.take (b + 1) ++ [d.toUpper], c.toLower,
            by simp, isWhitespace_toLower hc⟩
        · have h1 : (u ++ [c, ' ']).take (b + 1) = u := by
            rw [List.take_append_of_le_length (by omega), hC, List.take_length]
          have h2 : (u ++ [c, ' ']).drop (b + 1) = [c, ' '] := by
            rw [List.drop_append_of_le_length (by omega), hC, List.drop_length]
            rfl
          have h4 : (u ++ [c, ' ']).drop (b + 3) = [] :=
            List.drop_of_length_le (by simp; omega)
          rw [h1, h2, h4]
          have hsp : Char.toLower ' ' = ' ' := by decide
          show EndsOk (u ++ [c.toUpper, Char.toLower ' '] ++ [])
          rw [hsp]
          exact Or.inr ⟨u, c.toUpper, by simp, isWhitespace_toUpper hc⟩
        · have h1 : (u ++ [c, ' ']).take (b + 1) = u ++ [c] := by
            rw [List.take_append_eq_append_take,
              List.take_of_length_le (by omega),
              show b + 1 - u.length = 1 by omega]
            rfl
          have h2 : (u ++ [c, ' ']).drop (b + 1) = [' '] := by
            rw [List.drop_append_eq_append_drop,
              List.drop_of_length_le (by omega),
              show b + 1 - u.length = 1 by omega]
            rfl
          have h4 : (u ++ [c, ' ']).drop (b + 3) = [] :=
            List.drop_of_length_le (by simp; omega)
          rw [h1, h2, h4]
          have hspU : Char.toUpper ' ' = ' ' := by decide
          show EndsOk ((u ++ [c]) ++ [Char.toUpper ' '] ++ [])
          rw [hspU]
          exact Or.inr ⟨u, c, by simp, hc⟩
        · have h1 : (u ++ [c, ' ']).take (b + 1) = u ++ [c, ' '] :=
            List.take_of_length_le (by simp; omega)
          have h2 : (u ++ [c, ' ']).drop (b + 1) = [] :=
            List.drop_of_length_le (by simp; omega)
          have h4 : (u ++ [c, ' ']).drop (b + 3) = [] :=
            List.drop_of_length_le (by simp; omega)
          rw [h1, h2, h4]
          exact Or.inr ⟨u, c, by simp [pyCapitalize], hc⟩
      · exact Or.inr ⟨u, c, rfl, hc⟩

/-- Claim C7: for every parsed line that yields an entry, the entry's
`originalLanguage` (the displayName) never ends in whitespace — the
trailing separating space is trimmed — and on a degenerate line of
exactly two tokens it is the empty string. -/
theorem C7_displayName_no_trailing_whitespace (lang_ids : List PyStr)
    (line : PyStr) (lang : Language)
    (h : parseLine lang_ids (pySplit (pyStrip line)) = .ok (some lang)) :
    (∀ c, lang.originalLanguage.getLast? = some c → c.isWhitespace = false) ∧
    ((pySplit (pyStrip line)).length = 2 → lang.originalLanguage = []) := by
  obtain ⟨hlen, rfl⟩ := parseLine_ok_some h
  have hgood : ∀ t ∈ (pySplit (pyStrip line)).take
      ((pySplit (pyStrip line)).length - 2),
      t ≠ [] ∧ ∀ c ∈ t, c.isWhitespace = false :=
    fun t ht => pySplit_tokens (pyStrip line) t (List.mem_of_mem_take ht)
  have hE : EndsOk (recapAfterHyphen (buildName ((pySplit (pyStrip line)).take
      ((pySplit (pyStrip line)).length - 2)))) :=
    recapAfterHyphen_endsOk (buildName_endsOk hgood)
  constructor
  · exact endsOk_dropLast hE
  · intro h2
    show (recapAfterHyphen (buildName ((pySplit (pyStrip line)).take
      ((pySplit (pyStrip line)).length - 2)))).dropLast = []
    rw [h2]
    rfl

/-- Witness for C7 on the line `"Chinese Simplified 0x0004 zh-Hans"`. -/
theorem C7_witness :
    (∀ c, (mkLanguage []
        (pySplit (pyStrip ("Chinese Simplified 0x0004 zh-Hans").data))).originalLanguage.getLast? =
          some c → c.isWhitespace = false) ∧
    ((pySplit (pyStrip ("Chinese Simplified 0x0004 zh-Hans").data)).length = 2 →
      (mkLanguage []
        (pySplit (pyStrip ("Chinese Simplified 0x0004 zh-Hans").data))).originalLanguage = []) :=
  C7_displayName_no_trailing_whitespace []
    ("Chinese Simplified 0x0004 zh-Hans").data _ (by rfl)

end ExtractRsrcLang
